import Mathlib

/-!
Shallow embedding of `src/main.rs` of the character-picker repository.

The program loads a JSON array of character records, then answers three
queries (lookup by name, filter by skill tag, disadvantage aggregation),
either from one-shot command-line flags or from an interactive menu loop.

Modelling conventions:
* Rust `Vec<T>` becomes `List T`, `&str`/`String` become `String`.
* `i32` stats become `Int`; the `f32` stat fields are carried as the `Int`
  payload of the decoded JSON number: the program never computes with any
  stat, it only stores and prints them, so only presence/absence matters.
* The `HashMap<String, usize>` in `find_disadvantages` becomes an
  association list in insertion order; `entry(k).or_insert(0) += 1` becomes
  `countsInsert`.  Iteration order of the real hash map is unspecified, but
  every property proved below is invariant under the pre-sort order.
* Rust's `sort_by` is a stable sort; it is modelled by the stable
  `List.insertionSort` with the same comparator (descending count).
* Standard input is a list of lines.  At end of stream Rust's `read_line`
  returns `Ok(0)` leaving the (empty) buffer untouched, so reading from the
  exhausted stream yields the empty string, not an error.
* File system access is modelled by `Option Json`: `none` is a missing or
  unreadable or unparsable file, `some j` the parsed JSON content.
-/

namespace CharacterPicker

/-- `struct Stats` from `src/main.rs`.  The four `i32` fields and the five
`f32` fields all hold decoded JSON numbers, modelled as `Int` (no arithmetic
is ever performed on them). -/
structure Stats where
  health : Int
  attack : Int
  defense : Int
  speed : Int
  crit_rate : Int
  crit_damage : Int
  effect_hit_rate : Int
  effect_resistance : Int
  dual_attack_rate : Int
deriving Repr, DecidableEq

/-- `struct Skill` from `src/main.rs`. -/
structure Skill where
  name : String
  description : String
  tags : List String
deriving Repr, DecidableEq

/-- `struct Character` from `src/main.rs`. -/
structure Character where
  name : String
  «class» : String
  stats : Stats
  advantages : List String
  disadvantages : List String
  skills : List Skill
deriving Repr, DecidableEq

/-- `struct Opt` from `src/main.rs` (the structopt command-line flags). -/
structure Opt where
  file : String
  character : Option String
  skill_tag : Option String
  meta : Option (List String)
  interactive : Bool
deriving Repr, DecidableEq

/-- JSON values as seen by `serde_json` after parsing, with numbers carried
as `Int` (the program never does arithmetic on decoded numbers). -/
inductive Json where
  | null : Json
  | bool (b : Bool) : Json
  | num (n : Int) : Json
  | str (s : String) : Json
  | arr (xs : List Json) : Json
  | obj (fields : List (String × Json)) : Json
deriving Repr

/-- Field access on a JSON object: first binding with the given key (serde
reads each field once; duplicate fields are not exercised by any claim). -/
def Json.getField : Json → String → Option Json
  | .obj fields, k => fields.lookup k
  | _, _ => none

/-- serde decoding of a `String` field. -/
def decodeString : Json → Except String String
  | .str s => .ok s
  | _ => .error "invalid type: expected a string"

/-- serde decoding of an `i32` field (integer JSON number in range). -/
def decodeI32 : Json → Except String Int
  | .num n => if -(2 ^ 31) ≤ n ∧ n < 2 ^ 31 then .ok n else .error "invalid value: out of range for i32"
  | _ => .error "invalid type: expected a number"

/-- serde decoding of an `f32` field: any JSON number is accepted; the
numeric payload is kept as the decoded `Int`. -/
def decodeF32 : Json → Except String Int
  | .num n => .ok n
  | _ => .error "invalid type: expected a number"

/-- serde decoding of a `Vec<T>` field. -/
def decodeList (f : Json → Except String α) : Json → Except String (List α)
  | .arr xs => xs.mapM f
  | _ => .error "invalid type: expected an array"

/-- A mandatory struct field: serde's derived `Deserialize` errors with
`missing field` when a required field is absent. -/
def reqField (j : Json) (key : String) (f : Json → Except String α) : Except String α :=
  match j.getField key with
  | some v => f v
  | none => .error ("missing field `" ++ key ++ "`")

/-- serde's derived `Deserialize` for `Stats`: all nine fields mandatory. -/
def decodeStats (j : Json) : Except String Stats := do
  let health ← reqField j "health" decodeI32
  let attack ← reqField j "attack" decodeI32
  let defense ← reqField j "defense" decodeI32
  let speed ← reqField j "speed" decodeI32
  let crit_rate ← reqField j "crit_rate" decodeF32
  let crit_damage ← reqField j "crit_damage" decodeF32
  let effect_hit_rate ← reqField j "effect_hit_rate" decodeF32
  let effect_resistance ← reqField j "effect_resistance" decodeF32
  let dual_attack_rate ← reqField j "dual_attack_rate" decodeF32
  return { health, attack, defense, speed, crit_rate, crit_damage,
           effect_hit_rate, effect_resistance, dual_attack_rate }

/-- serde's derived `Deserialize` for `Skill`: all three fields mandatory. -/
def decodeSkill (j : Json) : Except String Skill := do
  let s_name ← reqField j "name" decodeString
  let description ← reqField j "description" decodeString
  let tags ← reqField j "tags" (decodeList decodeString)
  return { name := s_name, description, tags }

/-- serde's derived `Deserialize` for `Character`: all six declared fields
are mandatory (none is `Option` or `#[serde(default)]`); fields not in the
struct, such as `alias`, are ignored (serde's default behaviour). -/
def decodeCharacter (j : Json) : Except String Character := do
  let c_name ← reqField j "name" decodeString
  let cls ← reqField j "class" decodeString
  let stats ← reqField j "stats" decodeStats
  let advantages ← reqField j "advantages" (decodeList decodeString)
  let disadvantages ← reqField j "disadvantages" (decodeList decodeString)
  let skills ← reqField j "skills" (decodeList decodeSkill)
  return { name := c_name, «class» := cls, stats, advantages, disadvantages, skills }

/-- `load_characters` from `src/main.rs`: open the file (`none` = missing /
unreadable / text that is not JSON) and decode a `Vec<Character>`. -/
def load_characters (fileContent : Option Json) : Except String (List Character) :=
  match fileContent with
  | none => .error "No such file or directory (os error 2)"
  | some j => decodeList decodeCharacter j

/-- `display_character` from `src/main.rs`, as the list of printed lines
(the terminal colouring added by the `colored` crate carries no data). -/
def display_character (c : Character) : List String :=
  ["Name: " ++ c.name,
   "Class: " ++ c.«class»,
   "Stats:",
   "  Health: " ++ toString c.stats.health,
   "  Attack: " ++ toString c.stats.attack,
   "  Defense: " ++ toString c.stats.defense,
   "  Speed: " ++ toString c.stats.speed,
   "  Crit Rate: " ++ toString c.stats.crit_rate,
   "  Crit Damage: " ++ toString c.stats.crit_damage,
   "  Effect Hit Rate: " ++ toString c.stats.effect_hit_rate,
   "  Effect Resistance: " ++ toString c.stats.effect_resistance,
   "  Dual Attack Rate: " ++ toString c.stats.dual_attack_rate,
   "Advantages: " ++ toString c.advantages,
   "Disadvantages: " ++ toString c.disadvantages,
   "Skills:"] ++
  c.skills.flatMap (fun skill =>
    ["  Name: " ++ skill.name,
     "  Description: " ++ skill.description,
     "  Tags: " ++ toString skill.tags])

/-- `*disadvantage_counts.entry(disadvantage.clone()).or_insert(0) += 1`:
increment the binding of `k` in the association list, appending `(k, 1)`
when `k` is not yet a key. -/
def countsInsert (m : List (String × Nat)) (k : String) : List (String × Nat) :=
  match m with
  | [] => [(k, 1)]
  | (k', v) :: rest => if k' = k then (k', v + 1) :: rest else (k', v) :: countsInsert rest k

/-- The counting loop of `find_disadvantages` from `src/main.rs`: for every
character whose name is contained in `selected`, count each entry of its
`disadvantages` list. -/
def disadvantage_counts (characters : List Character) (selected : List String) :
    List (String × Nat) :=
  characters.foldl
    (fun m character =>
      if selected.contains character.name then
        character.disadvantages.foldl countsInsert m
      else m)
    []

/-- `find_disadvantages` from `src/main.rs`: count, then stable-sort by
descending count (`sort_by(|a, b| b.1.cmp(&a.1))`), then keep the keys. -/
def find_disadvantages (characters : List Character) (selected : List String) : List String :=
  (List.insertionSort (fun a b : String × Nat => b.2 ≤ a.2)
    (disadvantage_counts characters selected)).map Prod.fst

/-- `find_characters_by_skill_tag` from `src/main.rs`: the characters owning
at least one skill whose tag list contains `tag` (exact, case-sensitive). -/
def find_characters_by_skill_tag (characters : List Character) (tag : String) : List Character :=
  characters.filter (fun character =>
    character.skills.any (fun skill => skill.tags.contains tag))

/-- `characters.iter().find(|c| c.name == name)` as used by `main` and by
menu option 1 of `interactive_mode`. -/
def lookupCharacter (characters : List Character) (id : String) : Option Character :=
  characters.find? (fun c => c.name == id)

/-- The specification-side occurrence count: how many times `d` occurs in
the `disadvantages` lists of the selected characters, over the whole store. -/
def occCount (characters : List Character) (selected : List String) (d : String) : Nat :=
  (characters.map
    (fun c => if selected.contains c.name then c.disadvantages.count d else 0)).sum

/-- Reading one line from standard input, modelled as a list of lines.  At
end of stream `read_line` returns `Ok(0)` and leaves the freshly created
buffer empty, so the exhausted stream yields `""` and stays exhausted. -/
def readLine : List String → String × List String
  | [] => ("", [])
  | l :: ls => (l, ls)

/-- Rust's `str::trim` on a character list: drop leading and trailing
whitespace (Rust trims all Unicode whitespace; the inputs of this program
only ever carry ASCII whitespace, which `Char.isWhitespace` covers). -/
def trimChars (cs : List Char) : List Char :=
  ((cs.dropWhile Char.isWhitespace).reverse.dropWhile Char.isWhitespace).reverse

/-- Rust's `str::trim`, over the string's character list. -/
def trim (s : String) : String :=
  ⟨trimChars s.data⟩

/-- Rust's `str::parse::<u32>`: an optional leading `+`, then at least one
ASCII digit, value below `2 ^ 32`; anything else is an error. -/
def parseU32 (s : String) : Option Nat :=
  let cs := match s.data with
    | '+' :: rest => rest
    | cs => cs
  if cs ≠ [] ∧ cs.all Char.isDigit then
    let n := cs.foldl (fun acc c => acc * 10 + (c.toNat - 48)) 0
    if n < 2 ^ 32 then some n else none
  else none

/-- Rust's `str::split(',')` on a character list: the (always nonempty) list
of comma-separated groups; `"".split(',')` yields one empty item. -/
def splitCommaAux : List Char → List (List Char)
  | [] => [[]]
  | c :: rest =>
    match splitCommaAux rest with
    | [] => [[]]
    | grp :: grps => if c = ',' then [] :: grp :: grps else (c :: grp) :: grps

/-- `names.trim().split(',').map(|s| s.trim())` from menu option 3. -/
def splitCommaTrim (s : String) : List String :=
  (splitCommaAux (trim s).data).map (fun cs => String.mk (trimChars cs))

/-- The menu printed at the top of every iteration of `interactive_mode`. -/
def menuLines : List String :=
  ["Select an option:",
   "1. Display character details",
   "2. Find characters by skill tag",
   "3. Meta search for disadvantages",
   "4. Exit"]

/-- Outcome of one iteration of the `loop` in `interactive_mode`: either the
loop continues (`again`) or `break` was reached (`done`); both carry the
lines printed in the iteration and the rest of the input stream. -/
inductive StepResult where
  | again (output : List String) (rest : List String) : StepResult
  | done (output : List String) (rest : List String) : StepResult
deriving Repr, DecidableEq

/-- One iteration of the `loop` of `interactive_mode` from `src/main.rs`:
print the menu, read a line, `trim().parse::<u32>().unwrap_or(0)`, then
dispatch on the choice. -/
def interactive_step (characters : List Character) (input : List String) : StepResult :=
  let (choiceLine, rest) := readLine input
  let choice := (parseU32 (trim choiceLine)).getD 0
  if choice = 1 then
    let (nameLine, rest1) := readLine rest
    let c_name := trim nameLine
    let result := match lookupCharacter characters c_name with
      | some c => display_character c
      | none => ["Character not found."]
    .again (menuLines ++ ["Enter character name:"] ++ result) rest1
  else if choice = 2 then
    let (tagLine, rest1) := readLine rest
    let tag := trim tagLine
    .again (menuLines ++ ["Enter skill tag:"] ++
      (find_characters_by_skill_tag characters tag).map Character.name) rest1
  else if choice = 3 then
    let (namesLine, rest1) := readLine rest
    let selected := splitCommaTrim namesLine
    .again (menuLines ++ ["Enter character names (comma separated):",
      "Disadvantages for selected characters:"] ++
      find_disadvantages characters selected) rest1
  else if choice = 4 then
    .done menuLines rest
  else
    .again (menuLines ++ ["Invalid option, try again."]) rest

/-- The `loop` of `interactive_mode`, run with fuel: `some output` when the
loop reached `break` within `fuel` iterations, `none` when it did not
terminate within the fuel. -/
def interactive_run (characters : List Character) (input : List String) : Nat → Option (List String)
  | 0 => none
  | fuel + 1 =>
    match interactive_step characters input with
    | .done out _ => some out
    | .again out rest =>
      match interactive_run characters rest fuel with
      | none => none
      | some out2 => some (out ++ out2)

/-- The non-interactive branch of `main` from `src/main.rs`: the three
optional one-shot queries, executed in order against the same store. -/
def one_shot (characters : List Character) (opt : Opt) : List String :=
  (match opt.character with
   | some c_name =>
     match lookupCharacter characters c_name with
     | some c => display_character c
     | none => ["Character not found."]
   | none => []) ++
  (match opt.skill_tag with
   | some tag => (find_characters_by_skill_tag characters tag).map Character.name
   | none => []) ++
  (match opt.meta with
   | some selected =>
     "Disadvantages for selected characters:" :: find_disadvantages characters selected
   | none => [])

/-- `main` from `src/main.rs`: load the store; the `?` propagates a load
failure out of `main`, which the runtime reports and turns into exit status
1; otherwise dispatch on `opt.interactive` and finish with status 0.  The
result is `some (printed lines, exit status)`, or `none` when the
interactive loop did not terminate within `fuel` iterations. -/
def mainRun (opt : Opt) (fileContent : Option Json) (input : List String) (fuel : Nat) :
    Option (List String × Nat) :=
  match load_characters fileContent with
  | .error e => some (["Error: " ++ e], 1)
  | .ok characters =>
    if opt.interactive then
      match interactive_run characters input fuel with
      | none => none
      | some out => some (out, 0)
    else
      some (one_shot characters opt, 0)

/-- Stats of the sample characters used by the concrete witnesses below. -/
def sampleStats : Stats := ⟨10, 5, 3, 7, 1, 2, 0, 0, 0⟩

/-- Sample character `A` (disadvantages `x`, `y`; one skill tagged `attack`). -/
def charA : Character :=
  { name := "A", «class» := "mage", stats := sampleStats,
    advantages := [], disadvantages := ["x", "y"],
    skills := [{ name := "fire", description := "burn", tags := ["attack", "aoe"] }] }

/-- Sample character `B` (disadvantages `y`, `z`; one skill tagged `defense`). -/
def charB : Character :=
  { name := "B", «class» := "knight", stats := sampleStats,
    advantages := ["sturdy"], disadvantages := ["y", "z"],
    skills := [{ name := "guard", description := "block", tags := ["defense"] }] }

/-- The sample record store used by the concrete witnesses below. -/
def sampleStore : List Character := [charA, charB]

/-- JSON encoding of `sampleStats`. -/
def sampleStatsJson : Json :=
  .obj [("health", .num 10), ("attack", .num 5), ("defense", .num 3), ("speed", .num 7),
        ("crit_rate", .num 1), ("crit_damage", .num 2), ("effect_hit_rate", .num 0),
        ("effect_resistance", .num 0), ("dual_attack_rate", .num 0)]

/-- The skills field of `charA` in JSON. -/
def charASkillsJson : Json :=
  .arr [.obj [("name", .str "fire"), ("description", .str "burn"),
              ("tags", .arr [.str "attack", .str "aoe"])]]

/-- JSON encoding of `charA` with every mandatory field present. -/
def charAJson : Json :=
  .obj [("name", .str "A"), ("class", .str "mage"), ("stats", sampleStatsJson),
        ("advantages", .arr []),
        ("disadvantages", .arr [.str "x", .str "y"]),
        ("skills", charASkillsJson)]

/-- JSON encoding of `charB`. -/
def charBJson : Json :=
  .obj [("name", .str "B"), ("class", .str "knight"), ("stats", sampleStatsJson),
        ("advantages", .arr [.str "sturdy"]),
        ("disadvantages", .arr [.str "y", .str "z"]),
        ("skills", .arr [.obj [("name", .str "guard"), ("description", .str "block"),
                               ("tags", .arr [.str "defense"])]])]

/-- JSON encoding of the sample store. -/
def sampleJson : Json := .arr [charAJson, charBJson]

example : load_characters (some sampleJson) = .ok sampleStore := by rfl

/-- `charA` with an extra `alias` field, unknown to the `Character` struct. -/
def charAJsonWithAlias : Json :=
  .obj [("name", .str "A"), ("alias", .arr [.str "Ace"]), ("class", .str "mage"),
        ("stats", sampleStatsJson), ("advantages", .arr []),
        ("disadvantages", .arr [.str "x", .str "y"]), ("skills", charASkillsJson)]

/-- `charA`'s record without the `class` field. -/
def charAJsonNoClass : Json :=
  .obj [("name", .str "A"), ("stats", sampleStatsJson), ("advantages", .arr []),
        ("disadvantages", .arr [.str "x", .str "y"]), ("skills", charASkillsJson)]

/-- `charA`'s record without the `stats` field. -/
def charAJsonNoStats : Json :=
  .obj [("name", .str "A"), ("class", .str "mage"), ("advantages", .arr []),
        ("disadvantages", .arr [.str "x", .str "y"]), ("skills", charASkillsJson)]

/-- `charA`'s record without the `skills` field. -/
def charAJsonNoSkills : Json :=
  .obj [("name", .str "A"), ("class", .str "mage"), ("stats", sampleStatsJson),
        ("advantages", .arr []), ("disadvantages", .arr [.str "x", .str "y"])]

/-- A record carrying only `name`, `advantages` and `disadvantages`. -/
def minimalRecordJson : Json :=
  .obj [("name", .str "A"), ("advantages", .arr []), ("disadvantages", .arr [])]

/-- The count stored for key `k` in an association list (first binding). -/
def getCount (m : List (String × Nat)) (k : String) : Nat :=
  match m with
  | [] => 0
  | (k', v) :: rest => if k' = k then v else getCount rest k

theorem getCount_countsInsert (m : List (String × Nat)) (d k : String) :
    getCount (countsInsert m d) k = if d = k then getCount m k + 1 else getCount m k := by
  induction m with
  | nil => by_cases h : d = k <;> simp [countsInsert, getCount, h]
  | cons p rest ih =>
    obtain ⟨k', v⟩ := p
    by_cases h1 : k' = d
    · subst h1
      by_cases h2 : k' = k <;> simp [countsInsert, getCount, h2]
    · by_cases h2 : k' = k
      · have hdk : ¬ d = k := fun h => h1 (h2.trans h.symm)
        have h1k : ¬ k = d := fun h => h1 (h2.trans h)
        simp [countsInsert, getCount, h1, h2, hdk, h1k]
      · simp [countsInsert, getCount, h1, h2, ih]

theorem mem_keys_countsInsert (m : List (String × Nat)) (d k : String) :
    k ∈ (countsInsert m d).map Prod.fst ↔ k = d ∨ k ∈ m.map Prod.fst := by
  induction m with
  | nil => simp [countsInsert, eq_comm]
  | cons p rest ih =>
    obtain ⟨k', v⟩ := p
    by_cases h1 : k' = d
    · subst h1
      simp [countsInsert]
    · simp [countsInsert, h1, ih]
      tauto

theorem nodup_keys_countsInsert (m : List (String × Nat)) (d : String)
    (h : (m.map Prod.fst).Nodup) : ((countsInsert m d).map Prod.fst).Nodup := by
  induction m with
  | nil => simp [countsInsert]
  | cons p rest ih =>
    obtain ⟨k', v⟩ := p
    simp only [List.map_cons, List.nodup_cons] at h
    by_cases h1 : k' = d
    · subst h1
      simpa [countsInsert] using h
    · simp only [countsInsert, if_neg h1, List.map_cons, List.nodup_cons]
      refine ⟨?_, ih h.2⟩
      intro hmem
      rcases (mem_keys_countsInsert rest d k').mp hmem with h2 | h2
      · exact h1 h2
      · exact h.1 h2

theorem pos_countsInsert (m : List (String × Nat)) (d : String)
    (h : ∀ p ∈ m, 0 < p.2) : ∀ p ∈ countsInsert m d, 0 < p.2 := by
  induction m with
  | nil => simp [countsInsert]
  | cons q rest ih =>
    obtain ⟨k', v⟩ := q
    intro p hp
    by_cases h1 : k' = d
    · subst h1
      simp only [countsInsert, if_pos rfl] at hp
      rcases List.mem_cons.mp hp with h2 | h2
      · subst h2; exact Nat.succ_pos v
      · exact h p (List.mem_cons_of_mem _ h2)
    · simp only [countsInsert, if_neg h1] at hp
      rcases List.mem_cons.mp hp with h2 | h2
      · subst h2; exact h (k', v) (List.mem_cons_self _ _)
      · exact ih (fun q hq => h q (List.mem_cons_of_mem _ hq)) p h2

theorem getCount_eq_of_mem (m : List (String × Nat)) (k : String) (v : Nat)
    (hnd : (m.map Prod.fst).Nodup) (hm : (k, v) ∈ m) : getCount m k = v := by
  induction m with
  | nil => cases hm
  | cons p rest ih =>
    obtain ⟨k', v'⟩ := p
    simp only [List.map_cons, List.nodup_cons] at hnd
    rcases List.mem_cons.mp hm with h2 | h2
    · cases h2
      simp [getCount]
    · have hk : k' ≠ k := by
        intro he
        subst he
        exact hnd.1 (List.mem_map.mpr ⟨(k', v), h2, rfl⟩)
      simp [getCount, hk, ih hnd.2 h2]

theorem mem_keys_iff_getCount_pos (m : List (String × Nat)) (k : String)
    (hpos : ∀ p ∈ m, 0 < p.2) : k ∈ m.map Prod.fst ↔ 0 < getCount m k := by
  induction m with
  | nil => simp [getCount]
  | cons p rest ih =>
    obtain ⟨k', v⟩ := p
    have hrest : ∀ q ∈ rest, 0 < q.2 := fun q hq => hpos q (List.mem_cons_of_mem _ hq)
    by_cases h1 : k' = k
    · subst h1
      have hv : 0 < v := hpos (k', v) (List.mem_cons_self _ _)
      simp [getCount, hv]
    · have h1' : ¬ k = k' := fun he => h1 he.symm
      simp [getCount, h1, h1', ih hrest]

theorem getCount_foldl_countsInsert (ds : List String) (m : List (String × Nat)) (k : String) :
    getCount (ds.foldl countsInsert m) k = getCount m k + ds.count k := by
  induction ds generalizing m with
  | nil => simp
  | cons d rest ih =>
    rw [List.foldl_cons, ih, getCount_countsInsert, List.count_cons]
    by_cases h : d = k
    · simp [h]
      omega
    · have : ¬ k = d := fun he => h he.symm
      simp [h, this]

theorem mem_keys_foldl_countsInsert (ds : List String) (m : List (String × Nat)) (k : String) :
    k ∈ (ds.foldl countsInsert m).map Prod.fst ↔ k ∈ ds ∨ k ∈ m.map Prod.fst := by
  induction ds generalizing m with
  | nil => simp
  | cons d rest ih =>
    rw [List.foldl_cons, ih, mem_keys_countsInsert]
    simp
    tauto

theorem nodup_keys_foldl_countsInsert (ds : List String) (m : List (String × Nat))
    (h : (m.map Prod.fst).Nodup) : ((ds.foldl countsInsert m).map Prod.fst).Nodup := by
  induction ds generalizing m with
  | nil => exact h
  | cons d rest ih => exact ih _ (nodup_keys_countsInsert m d h)

theorem pos_foldl_countsInsert (ds : List String) (m : List (String × Nat))
    (h : ∀ p ∈ m, 0 < p.2) : ∀ p ∈ ds.foldl countsInsert m, 0 < p.2 := by
  induction ds generalizing m with
  | nil => exact h
  | cons d rest ih => exact ih _ (pos_countsInsert m d h)

theorem occCount_cons (c : Character) (rest : List Character) (selected : List String)
    (k : String) :
    occCount (c :: rest) selected k =
      (if selected.contains c.name then c.disadvantages.count k else 0) +
        occCount rest selected k := by
  simp [occCount]

theorem getCount_foldl_characters (characters : List Character) (selected : List String)
    (m : List (String × Nat)) (k : String) :
    getCount (characters.foldl
      (fun m character =>
        if selected.contains character.name then
          character.disadvantages.foldl countsInsert m
        else m) m) k = getCount m k + occCount characters selected k := by
  induction characters generalizing m with
  | nil => simp [occCount]
  | cons c rest ih =>
    rw [List.foldl_cons, ih, occCount_cons]
    by_cases hc : c.name ∈ selected
    · simp [hc, getCount_foldl_countsInsert]
      omega
    · simp [hc]

theorem nodup_keys_foldl_characters (characters : List Character) (selected : List String)
    (m : List (String × Nat)) (h : (m.map Prod.fst).Nodup) :
    ((characters.foldl
      (fun m character =>
        if selected.contains character.name then
          character.disadvantages.foldl countsInsert m
        else m) m).map Prod.fst).Nodup := by
  induction characters generalizing m with
  | nil => exact h
  | cons c rest ih =>
    rw [List.foldl_cons]
    refine ih _ ?_
    by_cases hc : c.name ∈ selected
    · simpa [hc] using nodup_keys_foldl_countsInsert c.disadvantages m h
    · simpa [hc] using h

theorem pos_foldl_characters (characters : List Character) (selected : List String)
    (m : List (String × Nat)) (h : ∀ p ∈ m, 0 < p.2) :
    ∀ p ∈ characters.foldl
      (fun m character =>
        if selected.contains character.name then
          character.disadvantages.foldl countsInsert m
        else m) m, 0 < p.2 := by
  induction characters generalizing m with
  | nil => exact h
  | cons c rest ih =>
    rw [List.foldl_cons]
    refine ih _ ?_
    by_cases hc : c.name ∈ selected
    · simpa [hc] using pos_foldl_countsInsert c.disadvantages m h
    · simpa [hc] using h

theorem getCount_disadvantage_counts (characters : List Character) (selected : List String)
    (k : String) :
    getCount (disadvantage_counts characters selected) k = occCount characters selected k := by
  have := getCount_foldl_characters characters selected [] k
  simpa [disadvantage_counts, getCount] using this

theorem nodup_keys_disadvantage_counts (characters : List Character) (selected : List String) :
    ((disadvantage_counts characters selected).map Prod.fst).Nodup :=
  nodup_keys_foldl_characters characters selected [] (by simp)

theorem pos_disadvantage_counts (characters : List Character) (selected : List String) :
    ∀ p ∈ disadvantage_counts characters selected, 0 < p.2 :=
  pos_foldl_characters characters selected [] (by simp)

theorem mem_keys_disadvantage_counts (characters : List Character) (selected : List String)
    (k : String) :
    k ∈ (disadvantage_counts characters selected).map Prod.fst ↔
      0 < occCount characters selected k := by
  rw [mem_keys_iff_getCount_pos _ _ (pos_disadvantage_counts characters selected),
      getCount_disadvantage_counts]

theorem occCount_pos_iff (characters : List Character) (selected : List String) (d : String) :
    0 < occCount characters selected d ↔
      ∃ c ∈ characters, c.name ∈ selected ∧ d ∈ c.disadvantages := by
  induction characters with
  | nil => simp [occCount]
  | cons c rest ih =>
    rw [occCount_cons]
    constructor
    · intro hp
      by_cases h : c.name ∈ selected
      · have hb : selected.contains c.name = true := by simpa using h
        rw [if_pos hb] at hp
        by_cases hc : 0 < c.disadvantages.count d
        · exact ⟨c, List.mem_cons_self _ _, h, List.count_pos_iff.mp hc⟩
        · have hr : 0 < occCount rest selected d := by omega
          obtain ⟨c', hc', hsel, hd⟩ := ih.mp hr
          exact ⟨c', List.mem_cons_of_mem _ hc', hsel, hd⟩
      · have hb : ¬ selected.contains c.name = true := by simpa using h
        rw [if_neg hb] at hp
        have hr : 0 < occCount rest selected d := by omega
        obtain ⟨c', hc', hsel, hd⟩ := ih.mp hr
        exact ⟨c', List.mem_cons_of_mem _ hc', hsel, hd⟩
    · rintro ⟨c', hc', hsel, hd⟩
      rcases List.mem_cons.mp hc' with he | hm
      · subst he
        have hb : selected.contains c'.name = true := by simpa using hsel
        rw [if_pos hb]
        have := List.count_pos_iff.mpr hd
        omega
      · have hr : 0 < occCount rest selected d := ih.mpr ⟨c', hm, hsel, hd⟩
        exact Nat.lt_of_lt_of_le hr (Nat.le_add_left _ _)

theorem foldl_counts_congr (characters : List Character) (sel1 sel2 : List String)
    (m : List (String × Nat))
    (h : ∀ c ∈ characters, sel1.contains c.name = sel2.contains c.name) :
    characters.foldl
      (fun m character =>
        if sel1.contains character.name then
          character.disadvantages.foldl countsInsert m
        else m) m =
    characters.foldl
      (fun m character =>
        if sel2.contains character.name then
          character.disadvantages.foldl countsInsert m
        else m) m := by
  induction characters generalizing m with
  | nil => rfl
  | cons c rest ih =>
    rw [List.foldl_cons, List.foldl_cons, h c (List.mem_cons_self _ _),
        ih _ (fun c' hc' => h c' (List.mem_cons_of_mem _ hc'))]

theorem disadvantage_counts_congr (characters : List Character) (sel1 sel2 : List String)
    (h : ∀ c ∈ characters, sel1.contains c.name = sel2.contains c.name) :
    disadvantage_counts characters sel1 = disadvantage_counts characters sel2 :=
  foldl_counts_congr characters sel1 sel2 [] h

theorem disadvantage_counts_nil (characters : List Character) :
    disadvantage_counts characters [] = [] := by
  induction characters with
  | nil => rfl
  | cons c rest _ih =>
    simp [disadvantage_counts]

/-- C1: for every record store and every selection set, the list returned by
`find_disadvantages` has no duplicate strings, and for any two adjacent
entries the occurrence count of the earlier entry is greater than or equal
to the occurrence count of the later entry. -/
theorem find_disadvantages_nodup_and_sorted (characters : List Character)
    (selected : List String) :
    (find_disadvantages characters selected).Nodup ∧
    List.Chain'
      (fun a b => occCount characters selected b ≤ occCount characters selected a)
      (find_disadvantages characters selected) := by
  have hto : IsTotal (String × Nat) (fun a b : String × Nat => b.2 ≤ a.2) :=
    ⟨fun a b => Nat.le_total b.2 a.2⟩
  have htr : IsTrans (String × Nat) (fun a b : String × Nat => b.2 ≤ a.2) :=
    ⟨fun _ _ _ hab hbc => Nat.le_trans hbc hab⟩
  have hperm :
      List.Perm
        (List.insertionSort (fun a b : String × Nat => b.2 ≤ a.2)
          (disadvantage_counts characters selected))
        (disadvantage_counts characters selected) :=
    List.perm_insertionSort _ _
  have hnodup := nodup_keys_disadvantage_counts characters selected
  have hvals : ∀ p ∈ disadvantage_counts characters selected,
      p.2 = occCount characters selected p.1 := by
    intro p hp
    obtain ⟨k, v⟩ := p
    have h1 := getCount_eq_of_mem (disadvantage_counts characters selected) k v hnodup hp
    rw [← h1, getCount_disadvantage_counts]
  constructor
  · exact (hperm.map Prod.fst).symm.nodup hnodup
  · have hsorted := List.sorted_insertionSort (fun a b : String × Nat => b.2 ≤ a.2)
      (disadvantage_counts characters selected)
    have hpair : List.Pairwise
        (fun a b : String × Nat =>
          occCount characters selected b.1 ≤ occCount characters selected a.1)
        (List.insertionSort (fun a b : String × Nat => b.2 ≤ a.2)
          (disadvantage_counts characters selected)) := by
      refine List.Pairwise.imp_of_mem ?_ hsorted
      intro a b ha hb hab
      rw [← hvals a (hperm.mem_iff.mp ha), ← hvals b (hperm.mem_iff.mp hb)]
      exact hab
    exact (List.pairwise_map.mpr hpair).chain'

/-- C2: every string `find_disadvantages` returns occurs in the
`disadvantages` list of at least one character of the store whose name is in
the selection; a selection identifier matching no character contributes
nothing; the empty selection yields the empty list. -/
theorem find_disadvantages_sound (characters : List Character) (selected : List String) :
    (∀ d ∈ find_disadvantages characters selected,
        ∃ c ∈ characters, c.name ∈ selected ∧ d ∈ c.disadvantages) ∧
    (∀ id, (∀ c ∈ characters, c.name ≠ id) →
        find_disadvantages characters (id :: selected) =
          find_disadvantages characters selected) ∧
    find_disadvantages characters [] = [] := by
  refine ⟨?_, ?_, ?_⟩
  · intro d hd
    have hperm := List.perm_insertionSort (fun a b : String × Nat => b.2 ≤ a.2)
      (disadvantage_counts characters selected)
    have hd' : d ∈ (disadvantage_counts characters selected).map Prod.fst :=
      (hperm.map Prod.fst).mem_iff.mp hd
    exact (occCount_pos_iff characters selected d).mp
      ((mem_keys_disadvantage_counts characters selected d).mp hd')
  · intro id hid
    have hcontains : ∀ c ∈ characters,
        (id :: selected).contains c.name = selected.contains c.name := by
      intro c hc
      have hne : c.name ≠ id := hid c hc
      simp [List.contains_cons, hne]
    unfold find_disadvantages
    rw [disadvantage_counts_congr characters (id :: selected) selected hcontains]
  · unfold find_disadvantages
    rw [disadvantage_counts_nil]
    rfl

theorem find_disadvantages_sound_witness :
    ∃ c ∈ sampleStore, c.name ∈ ["A"] ∧ "x" ∈ c.disadvantages :=
  (find_disadvantages_sound sampleStore ["A"]).1 "x" (by decide)

/-- C10: `find_disadvantages` depends only on the set of strings in the
selection list: selections containing the same strings (in any order, with
any duplicates) produce identical results. -/
theorem find_disadvantages_set_determined (characters : List Character)
    (sel1 sel2 : List String)
    (h1 : ∀ s ∈ sel1, s ∈ sel2) (h2 : ∀ s ∈ sel2, s ∈ sel1) :
    find_disadvantages characters sel1 = find_disadvantages characters sel2 := by
  have h : ∀ c ∈ characters, sel1.contains c.name = sel2.contains c.name := by
    intro c _
    by_cases hm : c.name ∈ sel1
    · have hm2 : c.name ∈ sel2 := h1 _ hm
      simp [hm, hm2]
    · have hm2 : c.name ∉ sel2 := fun hx => hm (h2 _ hx)
      simp [hm, hm2]
  unfold find_disadvantages
  rw [disadvantage_counts_congr characters sel1 sel2 h]

theorem find_disadvantages_set_determined_witness :
    find_disadvantages sampleStore ["A", "A", "B"] = find_disadvantages sampleStore ["B", "A"] :=
  find_disadvantages_set_determined sampleStore ["A", "A", "B"] ["B", "A"]
    (by decide) (by decide)

theorem lookupCharacter_eq_some (characters : List Character) (id : String) (c : Character)
    (hc : lookupCharacter characters id = some c) :
    c.name = id ∧ ∃ pre post, characters = pre ++ c :: post ∧ ∀ c' ∈ pre, c'.name ≠ id := by
  induction characters with
  | nil => exact absurd hc (by simp [lookupCharacter])
  | cons a l ih =>
    by_cases h : (a.name == id) = true
    · have ha : lookupCharacter (a :: l) id = some a := by
        simp only [lookupCharacter]
        exact List.find?_cons_of_pos _ h
      rw [ha] at hc
      cases hc
      exact ⟨by simpa using h, [], l, rfl, by simp⟩
    · have ha : lookupCharacter (a :: l) id = lookupCharacter l id := by
        simp only [lookupCharacter]
        exact List.find?_cons_of_neg _ h
      rw [ha] at hc
      obtain ⟨hname, pre, post, heq, hpre⟩ := ih hc
      refine ⟨hname, a :: pre, post, by simp [heq], ?_⟩
      intro c' hc'
      rcases List.mem_cons.mp hc' with he | hm
      · subst he
        simpa using h
      · exact hpre c' hm

theorem lookupCharacter_eq_none (characters : List Character) (id : String)
    (h : ∀ c ∈ characters, c.name ≠ id) : lookupCharacter characters id = none := by
  apply List.find?_eq_none.mpr
  intro c hc
  simpa using h c hc

theorem lookupCharacter_append (pre post : List Character) (c : Character) (id : String)
    (hc : c.name = id) (hpre : ∀ c' ∈ pre, c'.name ≠ id) :
    lookupCharacter (pre ++ c :: post) id = some c := by
  induction pre with
  | nil =>
    simp only [List.nil_append, lookupCharacter]
    exact List.find?_cons_of_pos _ (by simpa using hc)
  | cons a l ih =>
    have ha : ¬(a.name == id) = true := by simpa using hpre a (List.mem_cons_self _ _)
    have hstep : List.find? (fun c => c.name == id) (a :: (l ++ c :: post)) =
        List.find? (fun c => c.name == id) (l ++ c :: post) :=
      List.find?_cons_of_neg _ ha
    simp only [List.cons_append, lookupCharacter]
    rw [hstep]
    exact ih (fun c' hc' => hpre c' (List.mem_cons_of_mem _ hc'))

/-- C3: the lookup used by `main` and by menu option 1 returns `some c`
exactly when `c` is the first character in store order whose `name` equals
the identifier (case-sensitive exact comparison) — in particular, whenever
some character's name equals the identifier the lookup does return a
character; when no name matches, the lookup yields `none`, the program
prints "Character not found.", and the calling flow continues: the
remaining one-shot queries still run and the interactive loop proceeds to
its next iteration instead of aborting. -/
theorem lookup_by_identifier_spec (characters : List Character) (id : String) :
    (∀ c, lookupCharacter characters id = some c ↔
        c.name = id ∧
        ∃ pre post, characters = pre ++ c :: post ∧ ∀ c' ∈ pre, c'.name ≠ id) ∧
    ((∃ c ∈ characters, c.name = id) →
        ∃ c, lookupCharacter characters id = some c) ∧
    ((∀ c ∈ characters, c.name ≠ id) →
        lookupCharacter characters id = none ∧
        (∀ f tag sel,
            one_shot characters ⟨f, some id, some tag, some sel, false⟩ =
              "Character not found." ::
                ((find_characters_by_skill_tag characters tag).map Character.name ++
                  ("Disadvantages for selected characters:" ::
                    find_disadvantages characters sel))) ∧
        (∀ line rest, trim line = id →
            interactive_step characters ("1" :: line :: rest) =
              .again (menuLines ++ ["Enter character name:", "Character not found."]) rest)) := by
  refine ⟨?_, ?_, ?_⟩
  · intro c
    constructor
    · exact fun hc => lookupCharacter_eq_some characters id c hc
    · rintro ⟨hname, pre, post, heq, hpre⟩
      subst heq
      exact lookupCharacter_append pre post c id hname hpre
  · rintro ⟨c, hc, hname⟩
    cases hl : lookupCharacter characters id with
    | some c' => exact ⟨c', rfl⟩
    | none =>
      exfalso
      have := List.find?_eq_none.mp hl c hc
      simp [hname] at this
  · intro h
    have hnone := lookupCharacter_eq_none characters id h
    refine ⟨hnone, ?_, ?_⟩
    · intro f tag sel
      simp [one_shot, hnone]
    · intro line rest htrim
      have hp : (parseU32 (trim "1")).getD 0 = 1 := by decide
      simp [interactive_step, readLine, hp, htrim, hnone]

theorem lookup_by_identifier_spec_witness :
    lookupCharacter sampleStore "B" = some charB ∧
    lookupCharacter sampleStore "Ghost" = none ∧
    one_shot sampleStore ⟨"characters.json", some "Ghost", some "attack", some ["A"], false⟩ =
      "Character not found." ::
        ((find_characters_by_skill_tag sampleStore "attack").map Character.name ++
          ("Disadvantages for selected characters:" :: find_disadvantages sampleStore ["A"])) ∧
    interactive_step sampleStore ("1" :: "Ghost" :: ["4"]) =
      .again (menuLines ++ ["Enter character name:", "Character not found."]) ["4"] := by
  obtain ⟨h1, h2, h3⟩ := (lookup_by_identifier_spec sampleStore "Ghost").2.2 (by decide)
  refine ⟨?_, h1, h2 "characters.json" "attack" ["A"], h3 "Ghost" ["4"] (by decide)⟩
  exact ((lookup_by_identifier_spec sampleStore "B").1 charB).mpr
    ⟨by decide, [charA], [], rfl, by decide⟩

/-- C4: `find_characters_by_skill_tag` returns exactly the characters owning
at least one skill whose tag list contains the tag (case-sensitive exact
match), as a sub-sequence of the store (original order preserved), and the
empty list when no character has such a skill. -/
theorem find_characters_by_skill_tag_spec (characters : List Character) (tag : String) :
    (∀ c, c ∈ find_characters_by_skill_tag characters tag ↔
        c ∈ characters ∧ ∃ sk ∈ c.skills, tag ∈ sk.tags) ∧
    List.Sublist (find_characters_by_skill_tag characters tag) characters ∧
    ((∀ c ∈ characters, ∀ sk ∈ c.skills, tag ∉ sk.tags) →
        find_characters_by_skill_tag characters tag = []) := by
  refine ⟨?_, ?_, ?_⟩
  · intro c
    simp [find_characters_by_skill_tag, List.mem_filter, List.any_eq_true]
  · exact List.filter_sublist _
  · intro h
    rw [find_characters_by_skill_tag]
    rw [List.filter_eq_nil_iff]
    intro c hc hx
    obtain ⟨sk, hsk, htag⟩ := List.any_eq_true.mp hx
    exact h c hc sk hsk (by simpa using htag)

theorem find_characters_by_skill_tag_spec_witness :
    find_characters_by_skill_tag sampleStore "healing" = [] :=
  (find_characters_by_skill_tag_spec sampleStore "healing").2.2 (by decide)

/-- C5 counterexample: invoked with no query flags and without
`--interactive`, the program does not enter the interactive menu loop: the
run produces no output at all and exits 0 — in particular the menu header
that every loop iteration prints never appears — whereas the interactive
loop on the same input would have printed the menu. -/
theorem main_no_flags_does_not_enter_interactive :
    mainRun ⟨"characters.json", none, none, none, false⟩ (some sampleJson) ["4"] 5 =
      some ([], 0) ∧
    "Select an option:" ∉ ([] : List String) ∧
    interactive_run sampleStore ["4"] 5 = some menuLines := by
  refine ⟨by rfl, by simp, by rfl⟩

/-- C5 amended: with no query flags and `--interactive` not set, the
program performs no query and no interactive iteration after a successful
load: it prints nothing and exits 0 (the menu loop runs only under
`--interactive`). -/
theorem main_no_flags_amended (f : String) (fileContent : Option Json) (input : List String)
    (fuel : Nat) (characters : List Character)
    (h : load_characters fileContent = .ok characters) :
    mainRun ⟨f, none, none, none, false⟩ fileContent input fuel = some ([], 0) := by
  simp [mainRun, h, one_shot]

theorem main_no_flags_amended_witness :
    mainRun ⟨"characters.json", none, none, none, false⟩ (some sampleJson) [] 0 =
      some ([], 0) :=
  main_no_flags_amended "characters.json" (some sampleJson) [] 0 sampleStore (by rfl)

/-- C6 (the code violates the claim): on a closed standard-input stream the
interactive loop never terminates.  At end of stream `read_line` returns
`Ok(0)` with an empty buffer, the empty line parses as choice 0, the loop
prints "Invalid option, try again." and re-prompts — for ever, whatever the
fuel.  The claim (stream closure ends the loop) describes the intended
behaviour, not the code's. -/
theorem interactive_run_eof_never_terminates (characters : List Character) (fuel : Nat) :
    interactive_run characters [] fuel = none := by
  have hstep : interactive_step characters [] =
      .again (menuLines ++ ["Invalid option, try again."]) [] := by rfl
  induction fuel with
  | zero => rfl
  | succ n ih =>
    rw [interactive_run, hstep]
    simp [ih]

/-- C7: a load failure makes the run abort with exit status 1 having
printed only the error message (no query output); after a successful load
every completed run finishes with exit status 0. -/
theorem mainRun_exit_codes (opt : Opt) (fileContent : Option Json) (input : List String)
    (fuel : Nat) :
    (∀ e, load_characters fileContent = .error e →
        mainRun opt fileContent input fuel = some (["Error: " ++ e], 1)) ∧
    (∀ characters, load_characters fileContent = .ok characters →
        ∀ out code, mainRun opt fileContent input fuel = some (out, code) → code = 0) := by
  constructor
  · intro e he
    simp [mainRun, he]
  · intro characters hc out code hrun
    simp only [mainRun, hc] at hrun
    by_cases hi : opt.interactive
    · rw [if_pos hi] at hrun
      cases hceval : interactive_run characters input fuel with
      | none => rw [hceval] at hrun; cases hrun
      | some o =>
        rw [hceval] at hrun
        cases hrun
        rfl
    · rw [if_neg hi] at hrun
      cases hrun
      rfl

theorem mainRun_exit_codes_witness :
    mainRun ⟨"characters.json", none, none, none, false⟩ none [] 0 =
      some (["Error: No such file or directory (os error 2)"], 1) :=
  (mainRun_exit_codes ⟨"characters.json", none, none, none, false⟩ none [] 0).1
    "No such file or directory (os error 2)" (by rfl)

/-- C8 counterexample: a record in which the fields the spec calls optional
(`alias`, `class`, `stats`, `skills`) are all absent is rejected by the
loader with a `missing field` error, not accepted with defaults. -/
theorem load_minimal_record_rejected :
    load_characters (some (Json.arr [minimalRecordJson])) =
      .error "missing field `class`" := by rfl

/-- C8 amended: `class`, `stats` and `skills` are mandatory — a record
missing any of them fails to load — while `alias` may be absent (the struct
has no such field) and is ignored when present; a record with all mandatory
fields loads successfully. -/
theorem load_field_requirements :
    load_characters (some (Json.arr [charAJson])) = .ok [charA] ∧
    load_characters (some (Json.arr [charAJsonWithAlias])) = .ok [charA] ∧
    load_characters (some (Json.arr [charAJsonNoClass])) = .error "missing field `class`" ∧
    load_characters (some (Json.arr [charAJsonNoStats])) = .error "missing field `stats`" ∧
    load_characters (some (Json.arr [charAJsonNoSkills])) = .error "missing field `skills`" :=
  ⟨rfl, rfl, rfl, rfl, rfl⟩

/-- C9: a menu line whose trimmed form does not parse as a `u32` (any
non-numeric line, such as "abc") makes the loop print
"Invalid option, try again." and continue with the next iteration on the
remaining input — no crash, and a run that terminates from the remaining
input terminates identically with the extra message prepended. -/
theorem interactive_invalid_option (characters : List Character) (line : String)
    (rest : List String) (h : parseU32 (trim line) = none) :
    interactive_step characters (line :: rest) =
      .again (menuLines ++ ["Invalid option, try again."]) rest ∧
    (∀ fuel out, interactive_run characters rest fuel = some out →
        interactive_run characters (line :: rest) (fuel + 1) =
          some (menuLines ++ ["Invalid option, try again."] ++ out)) := by
  have hstep : interactive_step characters (line :: rest) =
      .again (menuLines ++ ["Invalid option, try again."]) rest := by
    simp [interactive_step, readLine, h]
  refine ⟨hstep, ?_⟩
  intro fuel out hrun
  rw [interactive_run, hstep]
  simp [hrun]

theorem interactive_invalid_option_witness :
    interactive_step sampleStore ["abc", "4"] =
      .again (menuLines ++ ["Invalid option, try again."]) ["4"] ∧
    interactive_run sampleStore ["abc", "4"] 2 =
      some (menuLines ++ ["Invalid option, try again."] ++ menuLines) := by
  obtain ⟨h1, h2⟩ := interactive_invalid_option sampleStore "abc" ["4"] (by decide)
  exact ⟨h1, h2 1 menuLines (by decide)⟩

end CharacterPicker
